import Mathlib

/-!
Verification development for the yt-cli terminal video-feed browser
(src/main.rs). The Rust source is shallowly embedded below: pure data
transformations become Lean functions, and the effectful parts (cache
files, network fetches, the overlay subprocess and its command queue)
become explicit state passed in and out of the corresponding functions.
-/

namespace YtCli

/-- A video entry, as in `struct YTVideo` (src/main.rs:385-392).
The `DateTime<chrono::Local>` timestamp is modelled as an integer
(chronological comparison key); all other fields are strings. -/
structure YTVideo where
  id : String
  title : String
  author : String
  description : String
  timestamp : Int
deriving DecidableEq

/-- A channel, as in `struct YTChannel` (src/main.rs:305-309). -/
structure YTChannel where
  id : String
  name : Option String
deriving DecidableEq

/-- A topic, as in `struct YTTopic` (src/main.rs:299-303). -/
structure YTTopic where
  name : String
  channels : List YTChannel
deriving DecidableEq

/-- Insert a video into a list that is (intended to be) ascending by
timestamp, placing it before the first element whose timestamp is not
smaller. Together with `sortByTimestamp` this is a stable ascending
sort by the `timestamp` key, the semantics Rust guarantees for
`Vec::sort_by_key` (src/main.rs:286). -/
def insertByTimestamp (v : YTVideo) : List YTVideo → List YTVideo
  | [] => [v]
  | w :: ws =>
    if v.timestamp ≤ w.timestamp then v :: w :: ws
    else w :: insertByTimestamp v ws

/-- Stable ascending sort by timestamp, modelling
`videos.sort_by_key( | e | { e.timestamp } )` (src/main.rs:286). -/
def sortByTimestamp : List YTVideo → List YTVideo
  | [] => []
  | v :: vs => insertByTimestamp v (sortByTimestamp vs)

/-- The aggregated feed, as in `struct YTFeed` (src/main.rs:267-269). -/
structure YTFeed where
  videos : List YTVideo
deriving DecidableEq

/-- `YTFeed::from_channels` (src/main.rs:272-292), modelled over the
per-channel fetch outcomes: the Rust function spawns one thread per
channel and joins them, so its input is the list of `task.join()`
results, where `none` stands for a failed or panicked fetch task.
`task.join().as_mut().unwrap_or( &mut Vec::new() )` turns a failure
into the empty list; the lists are appended in channel order, sorted
ascending by timestamp (stably), and reversed. -/
def YTFeed.from_channels (results : List (Option (List YTVideo))) : YTFeed :=
  { videos := (sortByTimestamp ((results.map (fun r => r.getD [])).flatten)).reverse }

/-! ### Sorting lemmas for the aggregation pipeline -/

theorem insertByTimestamp_perm (v : YTVideo) (l : List YTVideo) :
    (insertByTimestamp v l).Perm (v :: l) := by
  induction l with
  | nil => simp [insertByTimestamp]
  | cons w ws ih =>
    by_cases h : v.timestamp ≤ w.timestamp
    · simp [insertByTimestamp, h]
    · simp only [insertByTimestamp, if_neg h]
      exact (List.Perm.cons w ih).trans (List.Perm.swap v w ws)

theorem sortByTimestamp_perm (l : List YTVideo) :
    (sortByTimestamp l).Perm l := by
  induction l with
  | nil => simp [sortByTimestamp]
  | cons v vs ih =>
    exact (insertByTimestamp_perm v (sortByTimestamp vs)).trans (ih.cons v)

theorem insertByTimestamp_pairwise (v : YTVideo) (l : List YTVideo)
    (h : l.Pairwise (fun a b => a.timestamp ≤ b.timestamp)) :
    (insertByTimestamp v l).Pairwise (fun a b => a.timestamp ≤ b.timestamp) := by
  induction l with
  | nil => simp [insertByTimestamp]
  | cons w ws ih =>
    rcases List.pairwise_cons.mp h with ⟨hw, hws⟩
    by_cases hv : v.timestamp ≤ w.timestamp
    · simp only [insertByTimestamp, if_pos hv]
      refine List.pairwise_cons.mpr ⟨?_, h⟩
      intro x hx
      rcases List.mem_cons.mp hx with hx | hx
      · exact hx ▸ hv
      · exact le_trans hv (hw x hx)
    · simp only [insertByTimestamp, if_neg hv]
      refine List.pairwise_cons.mpr ⟨?_, ih hws⟩
      intro x hx
      have hx' := (insertByTimestamp_perm v ws).mem_iff.mp hx
      rcases List.mem_cons.mp hx' with hx' | hx'
      · exact hx' ▸ le_of_lt (lt_of_not_le hv)
      · exact hw x hx'

theorem sortByTimestamp_pairwise (l : List YTVideo) :
    (sortByTimestamp l).Pairwise (fun a b => a.timestamp ≤ b.timestamp) := by
  induction l with
  | nil => simp [sortByTimestamp]
  | cons v vs ih => exact insertByTimestamp_pairwise v _ ih

theorem insertByTimestamp_filter_eq (v : YTVideo) (l : List YTVideo) (t : Int) :
    (insertByTimestamp v l).filter (fun w => w.timestamp == t) =
      if v.timestamp == t then v :: l.filter (fun w => w.timestamp == t)
      else l.filter (fun w => w.timestamp == t) := by
  induction l with
  | nil =>
    by_cases hv : v.timestamp == t <;> simp [insertByTimestamp, List.filter, hv]
  | cons w ws ih =>
    by_cases hle : v.timestamp ≤ w.timestamp
    · by_cases hv : v.timestamp == t <;>
        simp [insertByTimestamp, if_pos hle, List.filter, hv]
    · have hwv : w.timestamp < v.timestamp := lt_of_not_le hle
      by_cases hv : v.timestamp == t
      · have hw : (w.timestamp == t) = false := by
          have : w.timestamp ≠ t := by
            intro hEq
            exact absurd (hEq ▸ (by exact_mod_cast of_decide_eq_true hv : v.timestamp = t) ▸ hwv)
              (lt_irrefl _)
          simpa using this
        simp [insertByTimestamp, if_neg hle, List.filter, hw, ih, hv]
      · by_cases hw : w.timestamp == t <;>
          simp [insertByTimestamp, if_neg hle, List.filter, hw, ih, hv]

theorem sortByTimestamp_filter_eq (l : List YTVideo) (t : Int) :
    (sortByTimestamp l).filter (fun w => w.timestamp == t) =
      l.filter (fun w => w.timestamp == t) := by
  induction l with
  | nil => simp [sortByTimestamp]
  | cons v vs ih =>
    by_cases hv : v.timestamp == t <;>
      simp [sortByTimestamp, insertByTimestamp_filter_eq, hv, ih, List.filter]

/-- Concrete videos used in counterexamples. -/
def va : YTVideo := { id := "a", title := "", author := "", description := "", timestamp := 0 }

def vb : YTVideo := { id := "b", title := "", author := "", description := "", timestamp := 0 }

end YtCli

namespace YtCli

/-- C1 (counterexample): the aggregated feed does NOT keep the original
per-channel relative order for equal timestamps. A single channel
returning `[va, vb]` (both with timestamp 0) aggregates to `[vb, va]`:
the tie order is reversed, because the code sorts ascending (stably)
and then reverses the whole vector. -/
theorem from_channels_tie_order_reversed_cex :
    (YTFeed.from_channels [some [va, vb]]).videos = [vb, va] ∧
      [vb, va] ≠ [va, vb] := by
  constructor
  · rfl
  · decide

/-- C1 (amended): the aggregated feed is sorted by timestamp descending
and is a permutation of the concatenation of the per-channel lists, but
videos with equal timestamps appear in the REVERSE of their original
concatenated order (the stable ascending sort followed by `reverse()`
reverses ties). -/
theorem from_channels_sorted_desc (results : List (Option (List YTVideo))) :
    (YTFeed.from_channels results).videos.Pairwise
        (fun a b => b.timestamp ≤ a.timestamp) ∧
      (YTFeed.from_channels results).videos.Perm
        ((results.map (fun r => r.getD [])).flatten) ∧
      ∀ t : Int,
        (YTFeed.from_channels results).videos.filter (fun w => w.timestamp == t) =
          (((results.map (fun r => r.getD [])).flatten).filter
            (fun w => w.timestamp == t)).reverse := by
  refine ⟨?_, ?_, ?_⟩
  · exact List.pairwise_reverse.mpr (sortByTimestamp_pairwise _)
  · exact (List.reverse_perm _).trans (sortByTimestamp_perm _)
  · intro t
    show (List.filter _ (List.reverse _)) = _
    rw [List.filter_reverse, sortByTimestamp_filter_eq]

/-- C2: a failed or panicked fetch task contributes exactly an empty
video list (aggregation over `rs` with channel `i` failed equals
aggregation with channel `i` returning `[]`), and every video of every
other channel is still present in the aggregated feed. -/
theorem from_channels_failure_isolation
    (rs : List (Option (List YTVideo))) (i : Nat) :
    YTFeed.from_channels (rs.set i none) =
        YTFeed.from_channels (rs.set i (some [])) ∧
      ∀ j vs v, j ≠ i → rs[j]? = some (some vs) → v ∈ vs →
        v ∈ (YTFeed.from_channels (rs.set i none)).videos := by
  constructor
  · show YTFeed.mk _ = YTFeed.mk _
    congr 2
    rw [List.map_set, List.map_set]
    rfl
  · intro j vs v hji hj hv
    have hperm := (from_channels_sorted_desc (rs.set i none)).2.1
    rw [hperm.mem_iff]
    rw [List.mem_flatten]
    refine ⟨vs, ?_, hv⟩
    have hget : ((rs.set i none).map (fun r => r.getD []))[j]? = some vs := by
      rw [List.getElem?_map, List.getElem?_set_ne (by omega), hj]
      rfl
    rcases List.getElem?_eq_some_iff.mp hget with ⟨hlt, hEq⟩
    exact hEq ▸ List.getElem_mem hlt

/-- C2 (witness): with `rs = [some [va], some [vb]]` and channel 0
failing, channel 1's video `vb` is still in the aggregated feed. -/
theorem from_channels_failure_isolation_witness :
    vb ∈ (YTFeed.from_channels ([some [va], some [vb]].set 0 none)).videos :=
  (from_channels_failure_isolation [some [va], some [vb]] 0).2
    1 [vb] vb (by decide) rfl (by decide)

/-! ### Channel fetch and its cache policy -/

/-- The staleness threshold compared against the cache file's age:
`Duration::from_secs( 1800 )` (src/main.rs:342). `Duration` compares by
total nanoseconds, so ages are modelled in nanoseconds. -/
def cacheMaxAgeNanos : Nat := 1800 * 1000000000

/-- Result of one `YTChannel::videos` call: the returned video list, the
cache file state after the call as `(age in nanoseconds, parsed video list)`,
and whether a network fetch was performed. -/
structure FetchOutcome where
  result : List YTVideo
  cacheAfter : Nat × List YTVideo
  didFetch : Bool
deriving DecidableEq

/-- `YTChannel::videos` (src/main.rs:338-382) over explicit state.
`cache` is the channel's cache file (`<cache>/feed/<id>.json`): `none` when
the file does not exist, otherwise `(age, content)` with `age` the elapsed
time since its mtime in nanoseconds and `content` the parsed video list.
`network` is the video list that the HTTP fetch piped through `xq` would
produce. The code fetches iff `!path.exists()` or the age exceeds
`Duration::from_secs(1800)`, overwriting the cache file wholesale
(fresh mtime, so age 0); it then reads and parses the file either way. -/
def YTChannel.videos (cache : Option (Nat × List YTVideo))
    (network : List YTVideo) : FetchOutcome :=
  match cache with
  | none => { result := network, cacheAfter := (0, network), didFetch := true }
  | some (age, content) =>
    if cacheMaxAgeNanos < age then
      { result := network, cacheAfter := (0, network), didFetch := true }
    else
      { result := content, cacheAfter := (age, content), didFetch := false }

/-- C3: a cache entry aged at most 1800 s yields no network fetch and the
parsed cached list; an entry strictly older than 1800 s, or a missing
entry, performs the fetch and overwrites the cache file with the fetched
content. -/
theorem videos_cache_policy (cache : Option (Nat × List YTVideo))
    (network : List YTVideo) :
    (∀ age content, cache = some (age, content) → age ≤ cacheMaxAgeNanos →
        YTChannel.videos cache network =
          { result := content, cacheAfter := (age, content), didFetch := false }) ∧
      (∀ age content, cache = some (age, content) → cacheMaxAgeNanos < age →
        YTChannel.videos cache network =
          { result := network, cacheAfter := (0, network), didFetch := true }) ∧
      (cache = none →
        YTChannel.videos cache network =
          { result := network, cacheAfter := (0, network), didFetch := true }) := by
  refine ⟨?_, ?_, ?_⟩
  · intro age content hc hle
    subst hc
    simp [YTChannel.videos, not_lt.mpr hle]
  · intro age content hc hlt
    subst hc
    simp [YTChannel.videos, hlt]
  · intro hc
    subst hc
    rfl

/-- C3 (witness): at age 1799 s the fetch is skipped and the cached list
is returned; at age 1801 s the fetch is performed and the cache is
overwritten with the fetched list. -/
theorem videos_cache_policy_witness :
    YTChannel.videos (some (1799 * 1000000000, [va])) [vb] =
        { result := [va], cacheAfter := (1799 * 1000000000, [va]), didFetch := false } ∧
      YTChannel.videos (some (1801 * 1000000000, [va])) [vb] =
        { result := [vb], cacheAfter := (0, [vb]), didFetch := true } :=
  ⟨(videos_cache_policy (some (1799 * 1000000000, [va])) [vb]).1
      (1799 * 1000000000) [va] rfl (by norm_num [cacheMaxAgeNanos]),
    (videos_cache_policy (some (1801 * 1000000000, [va])) [vb]).2.1
      (1801 * 1000000000) [va] rfl (by norm_num [cacheMaxAgeNanos])⟩

/-! ### The overlay command channel -/

/-- Overlay commands, as in `enum UeberzugAction` (src/main.rs:24-28).
`Add` carries the video id (used as the thumbnail path stem) and the
horizontal offset; `Exit` is the shutdown command. -/
inductive UeberzugAction where
  | Add : String → Nat → UeberzugAction
  | Remove : UeberzugAction
  | Exit : UeberzugAction
deriving DecidableEq

/-- The sending half of the `mpsc::channel::<UeberzugAction>()`
(src/main.rs:174) stored in `UEBERZUG_TX`: its queue of pending actions,
plus whether the receiving half is still alive (an `mpsc` send fails
exactly when the receiver was dropped). -/
structure UeberzugChannel where
  connected : Bool
  queue : List UeberzugAction
deriving DecidableEq

/-- The error type of a failed `mpsc` send (`mpsc::SendError`). -/
inductive ChanSendErr where
  | sendError : ChanSendErr
deriving DecidableEq

/-- `UeberzugAction::send` (src/main.rs:31-42): locks `UEBERZUG_TX`; when
it holds no sender (`utx.is_some()` false, i.e. the overlay was never
initialized) it returns `Ok(())` without touching anything; otherwise it
forwards the action to the channel, which enqueues it when the receiver
is alive and errors otherwise. Returns the channel state after the call. -/
def UeberzugAction.send (a : UeberzugAction) (tx : Option UeberzugChannel) :
    Except ChanSendErr (Option UeberzugChannel) :=
  match tx with
  | none => Except.ok none
  | some ch =>
    if ch.connected then
      Except.ok (some { ch with queue := ch.queue ++ [a] })
    else
      Except.error ChanSendErr.sendError

/-- C9: sending any overlay command before the controller is initialized
(`UEBERZUG_TX` unset) returns `Ok` and leaves the (absent) queue
untouched — the command is silently discarded — whereas a send on a live
initialized channel really does enqueue the command. -/
theorem send_before_init_discards (a : UeberzugAction) :
    UeberzugAction.send a none = Except.ok none ∧
      ∀ ch : UeberzugChannel, ch.connected = true →
        UeberzugAction.send a (some ch) =
          Except.ok (some { ch with queue := ch.queue ++ [a] }) := by
  refine ⟨rfl, ?_⟩
  intro ch hc
  simp [UeberzugAction.send, hc]

/-- C9 (witness): sending `Remove` with no sender installed returns `Ok`
and no queue appears; on a live empty channel it enqueues `Remove`. -/
theorem send_before_init_discards_witness :
    UeberzugAction.send UeberzugAction.Remove none = Except.ok none ∧
      UeberzugAction.send UeberzugAction.Remove
          (some { connected := true, queue := [] }) =
        Except.ok (some { connected := true, queue := [UeberzugAction.Remove] }) :=
  ⟨(send_before_init_discards UeberzugAction.Remove).1,
    (send_before_init_discards UeberzugAction.Remove).2
      { connected := true, queue := [] } rfl⟩

/-! ### The overlay consumer task -/

/-- One line written to the overlay subprocess's stdin by the consumer
task. The two `writeln!` sites (src/main.rs:187-195 and 216-223) only
ever emit an `add` line (path stem, `x`, `width`) or a `remove` line;
no other write to the subprocess exists in the program. -/
inductive OutLine where
  | addLine : String → Nat → Nat → OutLine
  | removeLine : OutLine
deriving DecidableEq

/-- An event observed by the consumer loop (src/main.rs:183-231) during
one iteration: either a command received from the queue
(`urx.recv_timeout`), or a pending `SIGWINCH` delivered by `trap.wait`,
carrying the terminal width that `tput cols` reports at that moment
(`0` when the output is empty or non-numeric, src/main.rs:204-214). -/
inductive UEvent where
  | cmd : UeberzugAction → UEvent
  | resize : Nat → UEvent
deriving DecidableEq

/-- The consumer task's loop (src/main.rs:179-232) over a linearized
trace of events, starting from a given `lastaction`. Returns the lines
written to the subprocess and the final `lastaction`. Per the code:
every received command is stored into `lastaction` before being matched;
`Add(path, offset)` writes an add line with `x = offset + 3` and
`width = offset`; `Remove` writes the remove line; `Exit` breaks out of
the loop immediately (writing nothing), so all later events are ignored.
A resize event re-issues an add line with `x = w / 2 + 1` and
`width = w / 2` from the current terminal width `w` — but only when
`lastaction` is an `Add`; otherwise it writes nothing. -/
def ueberzugRun (last : Option UeberzugAction) :
    List UEvent → List OutLine × Option UeberzugAction
  | [] => ([], last)
  | UEvent.cmd a :: rest =>
    match a with
    | UeberzugAction.Add path offset =>
      let r := ueberzugRun (some (UeberzugAction.Add path offset)) rest
      (OutLine.addLine path (offset + 3) offset :: r.1, r.2)
    | UeberzugAction.Remove =>
      let r := ueberzugRun (some UeberzugAction.Remove) rest
      (OutLine.removeLine :: r.1, r.2)
    | UeberzugAction.Exit => ([], some UeberzugAction.Exit)
  | UEvent.resize w :: rest =>
    match last with
    | some (UeberzugAction.Add path offset) =>
      let r := ueberzugRun (some (UeberzugAction.Add path offset)) rest
      (OutLine.addLine path (w / 2 + 1) (w / 2) :: r.1, r.2)
    | _ => ueberzugRun last rest

/-- The line the consumer writes for one received command (`none` for
`Exit`, which writes nothing). -/
def cmdLine : UeberzugAction → Option OutLine
  | UeberzugAction.Add path offset => some (OutLine.addLine path (offset + 3) offset)
  | UeberzugAction.Remove => some OutLine.removeLine
  | UeberzugAction.Exit => none

/-- `lastaction` after the consumer has received the commands `cmds`
starting from `last` (every command is stored, src/main.rs:185). -/
def lastAfter (last : Option UeberzugAction) (cmds : List UeberzugAction) :
    Option UeberzugAction :=
  cmds.foldl (fun _ c => some c) last

theorem ueberzugRun_cmds_append (cmds : List UeberzugAction) :
    ∀ (last : Option UeberzugAction) (rest : List UEvent),
      UeberzugAction.Exit ∉ cmds →
      ueberzugRun last (cmds.map UEvent.cmd ++ rest) =
        (cmds.filterMap cmdLine ++ (ueberzugRun (lastAfter last cmds) rest).1,
          (ueberzugRun (lastAfter last cmds) rest).2) := by
  induction cmds with
  | nil => intro last rest _; rfl
  | cons c cs ih =>
    intro last rest h
    have hc : c ≠ UeberzugAction.Exit := fun hEq => h (hEq ▸ List.mem_cons_self c cs)
    have hcs : UeberzugAction.Exit ∉ cs := fun hm => h (List.mem_cons_of_mem c hm)
    match c, hc with
    | UeberzugAction.Add path offset, _ =>
      have hih := ih (some (UeberzugAction.Add path offset)) rest hcs
      calc ueberzugRun last ((UeberzugAction.Add path offset :: cs).map UEvent.cmd ++ rest)
          = (OutLine.addLine path (offset + 3) offset ::
                (ueberzugRun (some (UeberzugAction.Add path offset))
                  (cs.map UEvent.cmd ++ rest)).1,
              (ueberzugRun (some (UeberzugAction.Add path offset))
                (cs.map UEvent.cmd ++ rest)).2) := rfl
        _ = ((UeberzugAction.Add path offset :: cs).filterMap cmdLine ++
              (ueberzugRun (lastAfter last (UeberzugAction.Add path offset :: cs)) rest).1,
            (ueberzugRun (lastAfter last (UeberzugAction.Add path offset :: cs)) rest).2) := by
          rw [hih]
          rfl
    | UeberzugAction.Remove, _ =>
      have hih := ih (some UeberzugAction.Remove) rest hcs
      calc ueberzugRun last ((UeberzugAction.Remove :: cs).map UEvent.cmd ++ rest)
          = (OutLine.removeLine ::
                (ueberzugRun (some UeberzugAction.Remove) (cs.map UEvent.cmd ++ rest)).1,
              (ueberzugRun (some UeberzugAction.Remove) (cs.map UEvent.cmd ++ rest)).2) := rfl
        _ = ((UeberzugAction.Remove :: cs).filterMap cmdLine ++
              (ueberzugRun (lastAfter last (UeberzugAction.Remove :: cs)) rest).1,
            (ueberzugRun (lastAfter last (UeberzugAction.Remove :: cs)) rest).2) := by
          rw [hih]
          rfl

theorem filterMap_cmdLine_length (cmds : List UeberzugAction)
    (h : UeberzugAction.Exit ∉ cmds) :
    (cmds.filterMap cmdLine).length = cmds.length := by
  induction cmds with
  | nil => rfl
  | cons c cs ih =>
    have hc : c ≠ UeberzugAction.Exit := fun hEq => h (hEq ▸ List.mem_cons_self c cs)
    have hcs : UeberzugAction.Exit ∉ cs := fun hm => h (List.mem_cons_of_mem c hm)
    match c, hc with
    | UeberzugAction.Add path offset, _ => simp [List.filterMap, cmdLine, ih hcs]
    | UeberzugAction.Remove, _ => simp [List.filterMap, cmdLine, ih hcs]

/-- C4 (counterexample): receiving `Add("a", 5)` followed by `Shutdown`
writes exactly the one drained add line and nothing else: no shutdown
command is ever written to the subprocess — the `Exit` arm of the match
is a bare `break` (src/main.rs:196). -/
theorem ueberzugRun_shutdown_cex :
    ueberzugRun none
        [UEvent.cmd (UeberzugAction.Add "a" 5), UEvent.cmd UeberzugAction.Exit] =
      ([OutLine.addLine "a" 8 5], some UeberzugAction.Exit) ∧
      (ueberzugRun none
        [UEvent.cmd (UeberzugAction.Add "a" 5), UEvent.cmd UeberzugAction.Exit]).1.length = 1 := by
  exact ⟨rfl, rfl⟩

/-- C4 (amended): when the queued commands are `cmds` (none of them a
shutdown) followed by `Shutdown` and then arbitrarily many further
events, the consumer writes exactly one line per drained command, in
order, then terminates; the shutdown command itself writes nothing and
nothing after it is ever processed or written. -/
theorem ueberzugRun_shutdown_drains_then_stops
    (last : Option UeberzugAction) (cmds : List UeberzugAction)
    (post : List UEvent) (h : UeberzugAction.Exit ∉ cmds) :
    ueberzugRun last (cmds.map UEvent.cmd ++ UEvent.cmd UeberzugAction.Exit :: post) =
        (cmds.filterMap cmdLine, some UeberzugAction.Exit) ∧
      (cmds.filterMap cmdLine).length = cmds.length := by
  constructor
  · rw [ueberzugRun_cmds_append cmds last (UEvent.cmd UeberzugAction.Exit :: post) h]
    simp [ueberzugRun]
  · exact filterMap_cmdLine_length cmds h

/-- C4 (witness): draining `[Add("a", 5), Remove]` before the shutdown
writes the two corresponding lines, then stops; a command enqueued after
the shutdown is never written. -/
theorem ueberzugRun_shutdown_drains_then_stops_witness :
    ueberzugRun none
        ([UeberzugAction.Add "a" 5, UeberzugAction.Remove].map UEvent.cmd ++
          UEvent.cmd UeberzugAction.Exit :: [UEvent.cmd UeberzugAction.Remove]) =
        ([OutLine.addLine "a" 8 5, OutLine.removeLine], some UeberzugAction.Exit) ∧
      ([UeberzugAction.Add "a" 5, UeberzugAction.Remove].filterMap cmdLine).length = 2 := by
  have h := ueberzugRun_shutdown_drains_then_stops none
    [UeberzugAction.Add "a" 5, UeberzugAction.Remove]
    [UEvent.cmd UeberzugAction.Remove] (by decide)
  exact ⟨h.1, h.2⟩

/-- C5 (counterexample): after `Add("a", 5)` then `Remove`, the
remembered `lastaction` is `Remove` — not the most recent `Add`'s id —
because every received command is stored (src/main.rs:185); a subsequent
resize therefore re-issues nothing: the output holds exactly the two
command lines and no resize-time add line. -/
theorem ueberzugRun_lastaction_cex :
    ueberzugRun none
        [UEvent.cmd (UeberzugAction.Add "a" 5), UEvent.cmd UeberzugAction.Remove,
          UEvent.resize 80] =
      ([OutLine.addLine "a" 8 5, OutLine.removeLine], some UeberzugAction.Remove) ∧
      some UeberzugAction.Remove ≠ some (UeberzugAction.Add "a" 5) := by
  exact ⟨rfl, by decide⟩

/-- C5 (amended): the consumer's `lastaction` equals the most recent
received command of ANY kind (not only `Add`); a resize event re-issues
an add line for the remembered video id with `x = w / 2 + 1` and
`width = w / 2` recomputed from the current terminal width `w` exactly
when `lastaction` is an `Add`, and writes nothing when it is `Remove`
or unset. -/
theorem ueberzugRun_lastaction_resize
    (lastStart : Option UeberzugAction) (cmds : List UeberzugAction)
    (a : UeberzugAction) (path : String) (offset w : Nat) (rest : List UEvent)
    (h : UeberzugAction.Exit ∉ cmds) (ha : a ≠ UeberzugAction.Exit) :
    (ueberzugRun lastStart ((cmds ++ [a]).map UEvent.cmd)).2 = some a ∧
      ueberzugRun (some (UeberzugAction.Add path offset)) (UEvent.resize w :: rest) =
        (OutLine.addLine path (w / 2 + 1) (w / 2) ::
            (ueberzugRun (some (UeberzugAction.Add path offset)) rest).1,
          (ueberzugRun (some (UeberzugAction.Add path offset)) rest).2) ∧
      ueberzugRun (some UeberzugAction.Remove) (UEvent.resize w :: rest) =
        ueberzugRun (some UeberzugAction.Remove) rest ∧
      ueberzugRun none (UEvent.resize w :: rest) = ueberzugRun none rest := by
  refine ⟨?_, rfl, rfl, rfl⟩
  have hall : UeberzugAction.Exit ∉ cmds ++ [a] := by
    intro hm
    rcases List.mem_append.mp hm with hm | hm
    · exact h hm
    · exact ha (List.mem_singleton.mp hm).symm
  rw [show (cmds ++ [a]).map UEvent.cmd = (cmds ++ [a]).map UEvent.cmd ++ [] from
    (List.append_nil _).symm]
  rw [ueberzugRun_cmds_append (cmds ++ [a]) lastStart [] hall]
  simp [ueberzugRun, lastAfter, List.foldl_append]

/-- C5 (witness): after commands `[Remove, Add("a", 5)]` the remembered
action is that `Add`; a resize at width 80 with it remembered re-issues
`add("a", x = 41, width = 40)`; a resize with `Remove` remembered (or
with nothing remembered) writes nothing. -/
theorem ueberzugRun_lastaction_resize_witness :
    (ueberzugRun none
        (([UeberzugAction.Remove] ++ [UeberzugAction.Add "a" 5]).map UEvent.cmd)).2 =
        some (UeberzugAction.Add "a" 5) ∧
      ueberzugRun (some (UeberzugAction.Add "a" 5)) [UEvent.resize 80] =
        (OutLine.addLine "a" 41 40 ::
            (ueberzugRun (some (UeberzugAction.Add "a" 5)) []).1,
          (ueberzugRun (some (UeberzugAction.Add "a" 5)) []).2) ∧
      ueberzugRun (some UeberzugAction.Remove) [UEvent.resize 80] =
        ueberzugRun (some UeberzugAction.Remove) [] ∧
      ueberzugRun none [UEvent.resize 80] = ueberzugRun none [] :=
  ueberzugRun_lastaction_resize none [UeberzugAction.Remove]
    (UeberzugAction.Add "a" 5) "a" 5 80 [] (by decide) (by decide)

/-! ### Thumbnail requests and overlay initialization -/

/-- Result of one `YTVideo::thumbnail` call: the overlay commands sent
(via `UeberzugAction::send`), the set of video ids whose thumbnail file
exists on disk afterwards, and whether an HTTP download happened. -/
structure ThumbnailOutcome where
  sent : List UeberzugAction
  store : List String
  didDownload : Bool
deriving DecidableEq

/-- `YTVideo::thumbnail` (src/main.rs:399-415) over explicit state.
`store` lists the video ids whose `<cache>/thumb/<id>.jpg` exists. When
the file is missing the code sends `Remove`, downloads the image, writes
the file, and then sends `Add(id, width)`; when it exists it sends only
`Add(id, width)`. (The `UEBERZUG_INIT.call_once` on entry is modelled
separately by `callOnceUeberzug`.) -/
def YTVideo.thumbnail (v : YTVideo) (width : Nat) (store : List String) :
    ThumbnailOutcome :=
  if v.id ∈ store then
    { sent := [UeberzugAction.Add v.id width], store := store, didDownload := false }
  else
    { sent := [UeberzugAction.Remove, UeberzugAction.Add v.id width],
      store := v.id :: store, didDownload := true }

/-- C6: with no thumbnail file on disk, a thumbnail request emits
exactly `Remove` then — after downloading and persisting the file —
`Add(id, width)`; with the file already present it emits only
`Add(id, width)` and downloads nothing, leaving the store unchanged. -/
theorem thumbnail_emits (v : YTVideo) (width : Nat) (store : List String) :
    (v.id ∉ store →
        YTVideo.thumbnail v width store =
          { sent := [UeberzugAction.Remove, UeberzugAction.Add v.id width],
            store := v.id :: store, didDownload := true }) ∧
      (v.id ∈ store →
        YTVideo.thumbnail v width store =
          { sent := [UeberzugAction.Add v.id width], store := store,
            didDownload := false }) := by
  constructor
  · intro h
    simp [YTVideo.thumbnail, h]
  · intro h
    simp [YTVideo.thumbnail, h]

/-- C6 (witness): video `"a"` not cached emits `Remove` then
`Add("a", 40)` and downloads; cached under `["a"]` it emits only
`Add("a", 40)` with no download. -/
theorem thumbnail_emits_witness :
    YTVideo.thumbnail va 40 [] =
        { sent := [UeberzugAction.Remove, UeberzugAction.Add "a" 40],
          store := ["a"], didDownload := true } ∧
      YTVideo.thumbnail va 40 ["a"] =
        { sent := [UeberzugAction.Add "a" 40], store := ["a"],
          didDownload := false } :=
  ⟨(thumbnail_emits va 40 []).1 (by decide),
    (thumbnail_emits va 40 ["a"]).2 (by decide)⟩

/-- The overlay initialization state of one interactive session:
whether `UEBERZUG_INIT` (a `std::sync::Once`, src/main.rs:19) has run,
and how many `ueberzug` subprocesses have been spawned so far. -/
structure OverlayInitState where
  initialized : Bool
  spawnCount : Nat
deriving DecidableEq

/-- `UEBERZUG_INIT.call_once( YTCli::ueberzug )` at the top of every
thumbnail request (src/main.rs:400): `Once::call_once` runs its closure
iff no earlier call has run it, and serializes concurrent callers, so a
session is modelled as the sequence of `call_once` invocations in the
order `Once` admits them. `YTCli::ueberzug` (src/main.rs:164-177) spawns
exactly one `ueberzug` subprocess when it runs. -/
def callOnceUeberzug (s : OverlayInitState) : OverlayInitState :=
  if s.initialized then s
  else { initialized := true, spawnCount := s.spawnCount + 1 }

/-- The session's initial state: no overlay process yet. -/
def sessionInit : OverlayInitState :=
  { initialized := false, spawnCount := 0 }

/-- The state after `n` thumbnail requests of an interactive session
(each request begins with the `call_once`). -/
def runThumbnailRequests : Nat → OverlayInitState
  | 0 => sessionInit
  | n + 1 => callOnceUeberzug (runThumbnailRequests n)

/-- C8: across a whole session, however many thumbnail requests occur,
at most one overlay subprocess is ever spawned; as soon as one request
has happened the state is pinned at `initialized` with exactly one
spawn, so every later request reuses the same process. -/
theorem overlay_spawned_at_most_once (n : Nat) :
    (runThumbnailRequests n).spawnCount ≤ 1 ∧
      (1 ≤ n → runThumbnailRequests n =
        { initialized := true, spawnCount := 1 }) := by
  induction n with
  | zero => exact ⟨Nat.zero_le 1, fun h => absurd h (by decide)⟩
  | succ m ih =>
    rcases Nat.eq_zero_or_pos m with hm | hm
    · subst hm
      exact ⟨le_refl 1, fun _ => rfl⟩
    · have hstate := ih.2 hm
      constructor
      · show (callOnceUeberzug (runThumbnailRequests m)).spawnCount ≤ 1
        rw [hstate]
        exact le_refl 1
      · intro _
        show callOnceUeberzug (runThumbnailRequests m) = _
        rw [hstate]
        rfl

/-- C8 (witness): after three thumbnail requests exactly one subprocess
has been spawned and the overlay is initialized. -/
theorem overlay_spawned_at_most_once_witness :
    runThumbnailRequests 3 = { initialized := true, spawnCount := 1 } :=
  (overlay_spawned_at_most_once 3).2 (by decide)

/-! ### Topic selection from the configuration -/

/-- The separator predicate of the filter split in `YTCli::topics`
(src/main.rs:89-91): whitespace, `','` or `';'`. -/
def isSepChar (c : Char) : Bool :=
  c.isWhitespace || c == ',' || c == ';'

/-- The `allowed` string of `YTCli::topics` (src/main.rs:88-95): the
filter is split on separators and the pieces are collected into a single
`String`, which is exactly the filter with every separator character
removed. -/
def stripFilter (filter : String) : List Char :=
  filter.data.filter (fun c => !(isSepChar c))

/-- Whether `pre` is a prefix of `l` (character lists). -/
def charsPre (pre : List Char) : List Char → Bool :=
  fun l =>
    match pre, l with
    | [], _ => true
    | _ :: _, [] => false
    | a :: as, b :: bs => a == b && charsPre as bs

/-- Substring containment on character lists: `strContains hay needle`
models Rust's `str::contains` with a string needle (src/main.rs:102). -/
def strContains (hay needle : List Char) : Bool :=
  match hay with
  | [] => needle.isEmpty
  | _ :: hs => charsPre needle hay || strContains hs needle

/-- The parsed configuration (`configparser::ini::Ini::get_map`): each
section name mapped to its key/optional-value pairs. -/
abbrev IniMap := List (String × List (String × Option String))

/-- The channel list built from one config section (src/main.rs:107-124):
a key with a value is a named channel whose id is the value; a key
without a value is an unnamed channel whose id is the key itself. -/
def sectionChannels (v : List (String × Option String)) : List YTChannel :=
  v.map (fun kv =>
    match kv.2 with
    | some cid => { id := cid, name := some kv.1 }
    | none => { id := kv.1, name := none })

/-- `YTCli::topics` (src/main.rs:85-129): a section becomes a topic
unless it is named `"default"`, or the stripped filter is nonempty and
does not contain the section name as a substring. -/
def topics (config : IniMap) (filter : String) : List YTTopic :=
  config.filterMap (fun sec =>
    if sec.1 = "default" ∨
        (0 < (stripFilter filter).length ∧
          strContains (stripFilter filter) sec.1.data = false) then
      none
    else
      some { name := sec.1, channels := sectionChannels sec.2 })

/-- Modelled from the spec: claim C7's inclusion condition, "the filter
is empty or the topic name is a substring of the filter" — stated over
the raw filter string, for comparison with `topics`. -/
def specTopicIncluded (filter topic : String) : Bool :=
  filter == "" || strContains filter.data topic.data

/-- C7 (counterexample): with one configured topic `"ab"` and the filter
`"a,b"`, the code includes the topic, although the filter is nonempty
and `"ab"` is NOT a substring of `"a,b"`: the code strips the separators
first and tests containment in `"ab"`, not in the filter itself. -/
theorem topics_substring_cex :
    (topics [("ab", [])] "a,b").map YTTopic.name = ["ab"] ∧
      specTopicIncluded "a,b" "ab" = false := by
  constructor
  · rfl
  · rfl

/-- C7 (amended): a topic name is included exactly when it occurs as a
section other than `"default"` and either the filter stripped of all
whitespace/`','`/`';'` characters is empty, or the topic name is a
substring of that stripped string (not of the raw filter). -/
theorem topics_included_iff (config : IniMap) (filter : String) (sec : String) :
    (∃ t ∈ topics config filter, t.name = sec) ↔
      ((∃ v, (sec, v) ∈ config) ∧ sec ≠ "default" ∧
        (stripFilter filter = [] ∨
          strContains (stripFilter filter) sec.data = true)) := by
  constructor
  · rintro ⟨t, ht, hname⟩
    rcases List.mem_filterMap.mp ht with ⟨⟨s, v⟩, hmem, hf⟩
    by_cases hcond : s = "default" ∨
        (0 < (stripFilter filter).length ∧
          strContains (stripFilter filter) s.data = false)
    · rw [if_pos hcond] at hf
      exact absurd hf (by simp)
    · rw [if_neg hcond] at hf
      have ht' : t = { name := s, channels := sectionChannels v } :=
        (Option.some.injEq _ _).mp hf.symm
      have hsec : s = sec := by rw [← hname, ht']
      subst hsec
      push_neg at hcond
      refine ⟨⟨v, hmem⟩, hcond.1, ?_⟩
      by_cases hlen : 0 < (stripFilter filter).length
      · exact Or.inr (by simpa using hcond.2 hlen)
      · exact Or.inl (List.eq_nil_of_length_eq_zero (Nat.eq_zero_of_not_pos hlen))
  · rintro ⟨⟨v, hmem⟩, hdef, hfil⟩
    refine ⟨{ name := sec, channels := sectionChannels v }, ?_, rfl⟩
    refine List.mem_filterMap.mpr ⟨(sec, v), hmem, ?_⟩
    rw [if_neg ?_]
    push_neg
    refine ⟨hdef, fun hlen => ?_⟩
    rcases hfil with hfil | hfil
    · rw [hfil] at hlen
      exact absurd hlen (by simp)
    · simp [hfil]

/-- C7 (amended, witness): topic `"b"` is included under filter
`"a b"`, whose stripped form `"ab"` contains `"b"` as a substring. -/
theorem topics_included_iff_witness :
    ∃ t ∈ topics [("b", [])] "a b", t.name = "b" :=
  (topics_included_iff [("b", [])] "a b" "b").mpr
    ⟨⟨[], by decide⟩, by decide, Or.inr rfl⟩

/-- C10: no topic returned by `YTCli::topics` is ever named
`"default"`: the default configuration section is unconditionally
filtered out (src/main.rs:102). -/
theorem topics_never_default (config : IniMap) (filter : String)
    (t : YTTopic) (h : t ∈ topics config filter) : t.name ≠ "default" := by
  rcases List.mem_filterMap.mp h with ⟨⟨s, v⟩, _, hf⟩
  by_cases hcond : s = "default" ∨
      (0 < (stripFilter filter).length ∧
        strContains (stripFilter filter) s.data = false)
  · rw [if_pos hcond] at hf
    exact absurd hf (by simp)
  · rw [if_neg hcond] at hf
    have ht : t = { name := s, channels := sectionChannels v } :=
      (Option.some.injEq _ _).mp hf.symm
    push_neg at hcond
    rw [ht]
    exact hcond.1

/-- C10 (witness): the topic `"a"` produced from a one-section config
under the empty filter is not named `"default"`. -/
theorem topics_never_default_witness :
    (YTTopic.mk "a" []).name ≠ "default" :=
  topics_never_default [("a", [])] "" (YTTopic.mk "a" []) (by decide)

end YtCli
